import Mathlib

/-!
Verification of the trend-analysis engine of the `loki` repository
(`utils/trend_analyzer.py`, `utils/google_trends_client.py`).

The Python code is shallowly embedded below.  Python floats are modelled as
exact rationals (`ℚ`): every arithmetic operation performed by the engine
(sums, means, divisions, comparisons) is rational, except for the square root
inside `statistics.stdev`.  For that case we carry the (rational) sample
variance and translate every comparison against the standard deviation or a
z-score into an equivalent comparison on variances; the exact real z-score of
a spike is then `(current_score - baseline_mean) / Real.sqrt baseline_var`,
stated as such in the theorems.  Python dicts with optional keys are modelled
as structures with `Option` fields and the `dict.get` default chains of the
source are reproduced verbatim.  Python `list.sort` (a stable sort) is
modelled by `List.mergeSort`, which is also stable.
-/

namespace Loki

/-- The fixed stop-word set of `TrendAnalyzer.__init__` (`self.stop_words`;
a Python `set`, so the duplicate `'her'` entry of the literal collapses). -/
def stop_words : List String :=
  ["the", "a", "an", "and", "or", "but", "in", "on", "at", "to", "for",
   "of", "with", "by", "is", "are", "was", "were", "be", "been", "have",
   "has", "had", "do", "does", "did", "will", "would", "could", "should",
   "this", "that", "these", "those", "i", "you", "he", "she", "it", "we", "they",
   "me", "him", "her", "us", "them", "my", "your", "his", "its", "our", "their"]

/-- Python `re.sub(r'[^\w\s]', ' ', text)`: every character that is neither a
word character (alphanumeric or underscore; ASCII here) nor whitespace is
replaced by a space; word characters and whitespace are kept. -/
def cleanChars (text : String) : String :=
  String.map (fun c => if c.isAlphanum || c = '_' || c.isWhitespace then c else ' ') text

/-- Python `str.split()` with no argument: split on whitespace runs, dropping
empty pieces. -/
def pySplit (s : String) : List String :=
  (s.split Char.isWhitespace).filter (fun w => w ≠ "")

/-- `TrendAnalyzer.extract_keywords`: lower-case, strip punctuation to spaces,
split, drop stop words and words shorter than `min_length`. -/
def extract_keywords (text : String) (min_length : ℕ) : List String :=
  let words := pySplit (cleanChars text.toLower)
  words.filter (fun word => !stop_words.contains word && decide (min_length ≤ word.length))

/-- `TrendAnalyzer.extract_ngrams`: all windows `words[i:i+n]`
(`i ∈ range(len(words) - n + 1)`), joined by a space, a window being kept only
when none of its words is a stop word.  There is no word-length filter. -/
def extract_ngrams (text : String) (n : ℕ) : List String :=
  let words := pySplit (cleanChars text.toLower)
  if words.length < n then []
  else
    ((List.range (words.length - n + 1)).map (fun i => (words.drop i).take n)).filterMap
      (fun w =>
        if w.any (fun word => stop_words.contains word) then none
        else some (String.intercalate (" ") w))

/-- One step of `collections.Counter` construction: increment the count of `s`,
keeping first-insertion key order (Python dicts preserve insertion order). -/
def insertCount : List (String × ℕ) → String → List (String × ℕ)
  | [], s => [(s, 1)]
  | (k, c) :: rest, s =>
    if k = s then (k, c + 1) :: rest else (k, c) :: insertCount rest s

/-- `collections.Counter(l)` as an insertion-ordered association list. -/
def counterList (l : List String) : List (String × ℕ) :=
  l.foldl insertCount []

/-- `Counter.most_common(n)`: the first `n` items of the stable sort of the
counter's items by count descending (CPython's documented
`sorted(items, key=count, reverse=True)[:n]` semantics: ties keep dict
insertion order). -/
def mostCommon (l : List String) (n : ℕ) : List (String × ℕ) :=
  ((counterList l).mergeSort (fun a b => decide (b.2 ≤ a.2))).take n

/-- An article dict.  The engine reads the keys `source`, `title`, `content`,
`published` through `.get(key, '')`, so each field is modelled as the string
the corresponding `get` returns. -/
structure Article where
  source : String
  title : String
  content : String
  published : String
deriving DecidableEq, Repr

/-- `article.get('content', '') + ' ' + article.get('title', '')`. -/
def articleText (a : Article) : String := a.content ++ " " ++ a.title

/-- All keywords over a batch, in batch order (`all_keywords` in
`analyze_article_frequency`). -/
def allKeywords (articles : List Article) : List String :=
  articles.flatMap (fun a => extract_keywords (articleText a) 3)

/-- All bigrams over a batch, in batch order (`all_bigrams` in
`analyze_article_frequency`). -/
def allBigrams (articles : List Article) : List String :=
  articles.flatMap (fun a => extract_ngrams (articleText a) 2)

/-- Return value of `analyze_article_frequency`: the two insertion-ordered
dicts `dict(keyword_counts.most_common(20))`, `dict(bigram_counts.most_common(15))`. -/
structure FreqData where
  keywords : List (String × ℕ)
  bigrams : List (String × ℕ)
deriving DecidableEq, Repr

/-- `TrendAnalyzer.analyze_article_frequency`. -/
def analyze_article_frequency (articles : List Article) : FreqData :=
  { keywords := mostCommon (allKeywords articles) 20
    bigrams := mostCommon (allBigrams articles) 15 }

/-- A topic dict produced by `detect_emerging_topics`
(`{topic, type, frequency, relevance_score}`). -/
structure Topic where
  topic : String
  ttype : String
  frequency : ℕ
  relevance_score : ℚ
deriving DecidableEq, Repr

/-- One of the two accumulation loops of `detect_emerging_topics`: turn counted
terms into topics, keeping only counts `≥ 2`;
`relevance_score = count / len(articles) if articles else 0`. -/
def mkTopics (pairs : List (String × ℕ)) (ttype : String) (articleCount : ℕ) : List Topic :=
  pairs.filterMap (fun p =>
    if 2 ≤ p.2 then
      some { topic := p.1, ttype := ttype, frequency := p.2,
             relevance_score := if articleCount = 0 then 0 else (p.2 : ℚ) / articleCount }
    else none)

/-- `TrendAnalyzer.detect_emerging_topics`: keyword topics then bigram topics,
stably sorted by `relevance_score` descending, truncated to 15. -/
def detect_emerging_topics (articles : List Article) : List Topic :=
  let fd := analyze_article_frequency articles
  let all_topics := mkTopics fd.keywords ("keyword") articles.length ++
                    mkTopics fd.bigrams ("bigram") articles.length
  (all_topics.mergeSort (fun a b => decide (b.relevance_score ≤ a.relevance_score))).take 15

/-- `GoogleTrendsClient._calculate_similarity`: Jaccard similarity of the sets
of whitespace-separated words. -/
def calculate_similarity (str1 str2 : String) : ℚ :=
  let words1 := (pySplit str1).toFinset
  let words2 := (pySplit str2).toFinset
  if words1 = ∅ ∨ words2 = ∅ then 0
  else
    let inter := words1 ∩ words2
    let union := words1 ∪ words2
    if union = ∅ then 0 else (inter.card : ℚ) / union.card

/-- Test whether `pat` occurs as a substring of `s` (Python `pat in s`),
expressed through `splitOn`: `pat` occurs iff splitting on it yields at least
two pieces. -/
def containsStr (s pat : String) : Bool := 2 ≤ (s.splitOn pat).length

/-- Authority value of a source URL in `calculate_trend_scores`:
`domain = source.split('/')[2] if '//' in source else source`, then the
domain-keyword heuristic (0.8 / 0.6 / 0.9 / 0.7). -/
def sourceAuthorityValue (source : String) : ℚ :=
  let domain := if containsStr source ("//") then (source.splitOn ("/")).getD 2 ("") else source
  if containsStr domain ("youtube.com") then 0.8
  else if containsStr domain ("reddit.com") then 0.6
  else if containsStr domain ("github.com") || containsStr domain ("stackoverflow.com") then 0.9
  else 0.7

/-- `source_authority.get(source, 0.5)`: the dict holds one entry per article
whose `source` is non-empty, valued by `sourceAuthorityValue`. -/
def sourceAuthorityLookup (articles : List Article) (source : String) : ℚ :=
  if articles.any (fun a => a.source == source && a.source != "") then
    sourceAuthorityValue source
  else 0.5

/-- A supporting-article dict (`{title, source, published}`), each key read
through `.get(key, '')`. -/
structure SuppArticle where
  title : String
  source : String
  published : String
deriving DecidableEq, Repr

/-- A trend dict as read and written by `calculate_trend_scores`: it reads
`trend.get('supporting_articles', [])` and writes the four score keys. -/
structure STrend where
  supporting_articles : List SuppArticle
  composite_score : ℚ
  recency_score : ℚ
  frequency_score : ℚ
  authority_score : ℚ
deriving DecidableEq, Repr

/-- The body of the `for trend in trends` loop of `calculate_trend_scores`:
`frequency_score = min(len(supp)/5.0, 1.0)`; `recency_score` counts every
supporting article as recent (`recent_count = len(supp)`), defaulting to 0.5
without supporting articles; `authority_score` is the mean authority of the
supporting articles' sources, defaulting to 0.5; the composite is the fixed
0.4/0.3/0.3 blend. -/
def scoreTrend (articles : List Article) (t : STrend) : STrend :=
  let supp := t.supporting_articles
  let frequency_score := min ((supp.length : ℚ) / 5) 1
  let recency_score :=
    if supp.length ≠ 0 then min ((supp.length : ℚ) / supp.length) 1 else 0.5
  let authority_score :=
    if supp.length ≠ 0 then
      (supp.map (fun s => sourceAuthorityLookup articles s.source)).sum / supp.length
    else 0.5
  let composite_score := 0.4 * recency_score + 0.3 * frequency_score + 0.3 * authority_score
  { t with
    composite_score := composite_score
    recency_score := recency_score
    frequency_score := frequency_score
    authority_score := authority_score }

/-- `TrendAnalyzer.calculate_trend_scores`: score every trend in place, then
stably sort by `composite_score` descending.  With no trends or no articles the
input is returned unchanged. -/
def calculate_trend_scores (trends : List STrend) (articles : List Article) : List STrend :=
  if trends.isEmpty ∨ articles.isEmpty then trends
  else
    (trends.map (scoreTrend articles)).mergeSort
      (fun a b => decide (b.composite_score ≤ a.composite_score))

/-- A trend-history entry dict as read by `detect_spikes`,
`analyze_trend_persistence` and `predict_emerging_trends`; every key is read
through a `.get` chain, so all fields are optional. -/
structure TrendEntry where
  name : Option String
  topic : Option String
  timestamp : Option String
  composite_score : Option ℚ
  relevance_score : Option ℚ
  frequency : Option ℚ
deriving DecidableEq, Repr

/-- `data_point.get('name', data_point.get('topic', 'unknown'))`. -/
def entryName (e : TrendEntry) : String := e.name.getD (e.topic.getD ("unknown"))

/-- `data_point.get('composite_score', data_point.get('relevance_score', 0))`. -/
def entryScore (e : TrendEntry) : ℚ := e.composite_score.getD (e.relevance_score.getD 0)

/-- `data_point.get('frequency', 0)`. -/
def entryFreq (e : TrendEntry) : ℚ := e.frequency.getD 0

/-- `data_point.get('timestamp', datetime.now().isoformat())`; the wall-clock
default is passed in explicitly as `now`. -/
def entryTs (e : TrendEntry) (now : String) : String := e.timestamp.getD now

/-- The per-entry record `{timestamp, score, frequency}` appended to
`trend_series[trend_name]` in `detect_spikes`. -/
structure HPoint where
  timestamp : String
  score : ℚ
  frequency : ℚ
deriving DecidableEq, Repr

def mkHPoint (e : TrendEntry) (now : String) : HPoint :=
  { timestamp := entryTs e now, score := entryScore e, frequency := entryFreq e }

/-- Append `v` to the group keyed `k`, keeping first-insertion key order
(`defaultdict` iteration order). -/
def addToGroups {β : Type} : List (String × List β) → String → β → List (String × List β)
  | [], k, v => [(k, [v])]
  | (n, vs) :: rest, k, v =>
    if n = k then (n, vs ++ [v]) :: rest else (n, vs) :: addToGroups rest k v

/-- The `trend_series` grouping loop of `detect_spikes`. -/
def buildSeries (trend_data : List TrendEntry) (now : String) :
    List (String × List HPoint) :=
  trend_data.foldl (fun gs e => addToGroups gs (entryName e) (mkHPoint e now)) []

/-- `statistics.mean` (applied by the source only to non-empty lists, except in
the `spike_type` computation, where the empty case raises and is modelled
explicitly at the call site). -/
def qMean (l : List ℚ) : ℚ := l.sum / l.length

/-- The square of `statistics.stdev`: the sample variance
`Σ (x - mean)² / (n - 1)`.  Since `stdev l = √(sampleVar l)`, every comparison
the source makes against the standard deviation or a z-score is translated
below into the equivalent comparison on variances. -/
def sampleVar (l : List ℚ) : ℚ :=
  (l.map (fun x => (x - qMean l) ^ 2)).sum / ((l.length : ℚ) - 1)

/-- `recent_scores = scores[-window_size:]` (Python slice semantics, including
`scores[-0:] = scores`). -/
def recentOf (scores : List ℚ) (w : ℕ) : List ℚ :=
  if w = 0 then scores else scores.drop (scores.length - w)

/-- `baseline_scores = scores[:-window_size] if len(scores) > window_size else scores`
(Python slice semantics, including `scores[:-0] = scores[:0] = []`). -/
def baselineOf (scores : List ℚ) (w : ℕ) : List ℚ :=
  if w < scores.length then (if w = 0 then [] else scores.take (scores.length - w))
  else scores

/-- The severity classification of the z-score
`z = (score - baseline_mean) / baseline_std`, evaluated by the source only
under `baseline_std > 0`: for a threshold `t > 0` and variance `v > 0`,
`z ≥ t ↔ 0 ≤ d ∧ t²·v ≤ d²` where `d = score - baseline_mean` and
`v = baseline_std²` (lemma `z_threshold_iff` below).  `none` is the
`continue` branch (`z < 2`). -/
def severityOf (d v : ℚ) : Option String :=
  if 0 ≤ d ∧ 16 * v ≤ d ^ 2 then some ("critical")
  else if 0 ≤ d ∧ 9 * v ≤ d ^ 2 then some ("high")
  else if 0 ≤ d ∧ 4 * v ≤ d ^ 2 then some ("moderate")
  else none

/-- `TrendAnalyzer._calculate_percentile` (the sort the source performs does
not change the count of elements strictly below `value`). -/
def calculate_percentile (value : ℚ) (data : List ℚ) : ℚ :=
  if data.isEmpty then 0
  else ((data.filter (fun x => decide (x < value))).length : ℚ) / data.length * 100

/-- A spike dict.  The source stores the float `z_score`; here the z-score is
represented exactly by `current_score`, `baseline_mean` and the baseline
sample variance `baseline_var`:
`z_score = (current_score - baseline_mean) / √baseline_var`. -/
structure Spike where
  trend_name : String
  timestamp : String
  severity : String
  current_score : ℚ
  baseline_mean : ℚ
  baseline_var : ℚ
  percentile : ℚ
  frequency : ℚ
  spike_type : String
deriving DecidableEq, Repr

deriving instance DecidableEq for Except

/-- The body of the `for i, score in enumerate(recent_scores)` loop of
`detect_spikes` for one recent point (the source runs it only under
`baseline_std > 0`): either no spike (`z_score < 2`), a spike record, or the
`StatisticsError` that `statistics.mean([])` raises inside the `spike_type`
computation when no baseline frequency is positive. -/
def spikeAt (name : String) (series : List HPoint) (frequencies : List ℚ)
    (baseline : List ℚ) (m v : ℚ) (w : ℕ) (i : ℕ) (score : ℚ) :
    Except String (Option Spike) :=
  match severityOf (score - m) v with
  | none => .ok none
  | some sev =>
    let ts := (series.getD (series.length - (w - i)) ⟨"", 0, 0⟩).timestamp
    let fr := if i < frequencies.length then frequencies.getD (frequencies.length - (w - i)) 0
              else 0
    let basefr := if w = 0 then [] else frequencies.take (frequencies.length - w)
    let posf := basefr.filter (fun f => decide (0 < f))
    if posf.isEmpty then .error ("mean requires at least one data point")
    else
      .ok (some
        { trend_name := name
          timestamp := ts
          severity := sev
          current_score := score
          baseline_mean := m
          baseline_var := v
          percentile := calculate_percentile score baseline
          frequency := fr
          spike_type := if qMean posf < fr then "frequency" else "score" })

/-- Fold of `spikeAt` over the enumerated recent scores, accumulating emitted
spikes in order and propagating a raised error. -/
def spikesLoop (name : String) (series : List HPoint) (frequencies : List ℚ)
    (baseline : List ℚ) (m v : ℚ) (w : ℕ) :
    List (ℕ × ℚ) → Except String (List Spike)
  | [] => .ok []
  | (i, score) :: rest =>
    match spikeAt name series frequencies baseline m v w i score with
    | .error e => .error e
    | .ok none => spikesLoop name series frequencies baseline m v w rest
    | .ok (some s) =>
      match spikesLoop name series frequencies baseline m v w rest with
      | .error e => .error e
      | .ok acc => .ok (s :: acc)

/-- Per-series analysis of `detect_spikes`: the body of the
`for trend_name, series in trend_series.items()` loop after the length guard
and the timestamp sort, from `if len(scores) >= window_size:` on.
`baseline_std = stdev(baseline) if len(baseline) > 1 else 0` and the guard
`baseline_std > 0` are carried on the variance (`std > 0 ↔ var > 0`). -/
def spikesForSeries (name : String) (series : List HPoint) (w : ℕ) :
    Except String (List Spike) :=
  let scores := series.map HPoint.score
  let frequencies := series.map HPoint.frequency
  if w ≤ scores.length then
    let recent := recentOf scores w
    let baseline := baselineOf scores w
    if baseline.isEmpty then .ok []
    else
      let m := qMean baseline
      let v := if 1 < baseline.length then sampleVar baseline else 0
      if 0 < v then spikesLoop name series frequencies baseline m v w recent.enum
      else .ok []
  else .ok []

/-- The group loop of `detect_spikes`: skip groups shorter than `window_size`,
sort each remaining group by timestamp (stable), analyze it, and concatenate
the spikes in group order; a raised error aborts the whole call. -/
def spikesOfGroups (w : ℕ) : List (String × List HPoint) → Except String (List Spike)
  | [] => .ok []
  | (n, ps) :: rest =>
    if ps.length < w then spikesOfGroups w rest
    else
      match spikesForSeries n (ps.mergeSort (fun a b => decide (a.timestamp ≤ b.timestamp))) w with
      | .error e => .error e
      | .ok s =>
        match spikesOfGroups w rest with
        | .error e => .error e
        | .ok acc => .ok (s ++ acc)

/-- `severity_order.get(severity, 0)` with
`severity_order = {'critical': 4, 'high': 3, 'moderate': 2}`. -/
def sevRank (s : String) : ℕ :=
  if s = "critical" then 4 else if s = "high" then 3 else if s = "moderate" then 2 else 0

/-- Boolean comparison `z₁ ≤ z₂` of two z-scores represented as
`zᵢ = dᵢ / √vᵢ` (with the degenerate value 0 when `vᵢ ≤ 0`), expressed by sign
analysis and cross-multiplied squares so that it is decidable over `ℚ`;
`zleB_iff` below proves it equivalent to the comparison of the real values. -/
def zleB (d1 v1 d2 v2 : ℚ) : Bool :=
  let a := if 0 < v1 then d1 else 0
  let p := if 0 < v1 then v1 else 1
  let b := if 0 < v2 then d2 else 0
  let q := if 0 < v2 then v2 else 1
  if a < 0 then decide (0 ≤ b) || decide (b ^ 2 * p ≤ a ^ 2 * q)
  else decide (0 ≤ b) && decide (a ^ 2 * q ≤ b ^ 2 * p)

/-- The final comparator of `detect_spikes`:
`key = (severity_order.get(severity, 0), z_score)` with `reverse=True`, i.e.
`a` precedes `b` iff `key(a) ≥ key(b)` lexicographically. -/
def spikeLeB (a b : Spike) : Bool :=
  decide (sevRank b.severity < sevRank a.severity) ||
  (decide (sevRank a.severity = sevRank b.severity) &&
    zleB (b.current_score - b.baseline_mean) b.baseline_var
         (a.current_score - a.baseline_mean) a.baseline_var)

/-- `TrendAnalyzer.detect_spikes`.  `now` stands for
`datetime.now().isoformat()` (the `timestamp` default for entries missing the
key); the `Except` layer models the `statistics.StatisticsError` the source
can raise (see `spikeAt`). -/
def detect_spikes (trend_data : List TrendEntry) (w : ℕ) (now : String) :
    Except String (List Spike) :=
  if trend_data.isEmpty || decide (trend_data.length < w) then .ok []
  else
    match spikesOfGroups w (buildSeries trend_data now) with
    | .error e => .error e
    | .ok spikes => .ok (spikes.mergeSort spikeLeB)

/-- The per-entry record `{timestamp, score}` grouped by
`analyze_trend_persistence`. -/
structure PPoint where
  timestamp : String
  score : ℚ
deriving DecidableEq, Repr

def mkPPoint (e : TrendEntry) (now : String) : PPoint :=
  { timestamp := entryTs e now, score := entryScore e }

/-- The `trend_lifespans` grouping loop of `analyze_trend_persistence`. -/
def buildLifespans (trend_history : List TrendEntry) (now : String) :
    List (String × List PPoint) :=
  trend_history.foldl (fun gs e => addToGroups gs (entryName e) (mkPPoint e now)) []

/-- Gregorian leap-year test. -/
def isLeap (y : ℤ) : Bool := (y % 4 == 0 && y % 100 != 0) || y % 400 == 0

def daysInMonth (y : ℤ) (m : ℕ) : ℕ :=
  if m = 2 then (if isLeap y then 29 else 28)
  else if m = 4 ∨ m = 6 ∨ m = 9 ∨ m = 11 then 30
  else 31

/-- Days since the civil epoch 0000-03-01 (the standard `days_from_civil`
algorithm); only differences of these values are used. -/
def daysFromCivil (y m d : ℤ) : ℤ :=
  let yy := if m ≤ 2 then y - 1 else y
  let era := Int.fdiv yy 400
  let yoe := yy - era * 400
  let mp := Int.emod (m + 9) 12
  let doy := Int.fdiv (153 * mp + 2) 5 + d - 1
  let doe := yoe * 365 + Int.fdiv yoe 4 - Int.fdiv yoe 100 + doy
  era * 146097 + doe

/-- Modelled from the `datetime.fromisoformat` calls of
`analyze_trend_persistence`, restricted to naive timestamps of the forms
`YYYY-MM-DD` and `YYYY-MM-DD[T or space]HH:MM:SS`; any other form (offsets,
fractional seconds, the `Z` suffix that `replace('Z', '+00:00')` turns into an
offset and whose aware/naive mix raises) falls into the `except` branch of the
source, which yields lifespan 0.  Returns seconds on an absolute civil scale. -/
def parseIso (s : String) : Option ℤ :=
  match (s.take 4).toNat?, ((s.drop 5).take 2).toNat?, ((s.drop 8).take 2).toNat? with
  | some y, some mo, some d =>
    if (s.drop 4).take 1 = "-" ∧ (s.drop 7).take 1 = "-" ∧
        1 ≤ mo ∧ mo ≤ 12 ∧ 1 ≤ d ∧ d ≤ daysInMonth y mo then
      if s.length = 10 then some (86400 * daysFromCivil y mo d)
      else if s.length = 19 ∧ ((s.drop 10).take 1 = "T" ∨ (s.drop 10).take 1 = " ") then
        match ((s.drop 11).take 2).toNat?, ((s.drop 14).take 2).toNat?,
            ((s.drop 17).take 2).toNat? with
        | some h, some mi, some sec =>
          if (s.drop 13).take 1 = ":" ∧ (s.drop 16).take 1 = ":" ∧
              h ≤ 23 ∧ mi ≤ 59 ∧ sec ≤ 59 then
            some (86400 * daysFromCivil y mo d + 3600 * h + 60 * mi + sec)
          else none
        | _, _, _ => none
      else none
    else none
  | _, _, _ => none

/-- `lifespan_days = (last_date - first_date).days`, 0 on parse failure;
`timedelta.days` floors towards -∞. -/
def lifespanDays (first last : String) : ℤ :=
  match parseIso first, parseIso last with
  | some a, some b => Int.fdiv (b - a) 86400
  | _, _ => 0

/-- A persistence record.  The source's `volatility` is
`statistics.stdev(scores)`; it is carried here as its square
`volatility_sq = sampleVar scores` (0 with fewer than 2 points). -/
structure PersistRecord where
  lifespan_days : ℤ
  entry_count : ℕ
  trend_direction : String
  volatility_sq : ℚ
  current_score : ℚ
  peak_score : ℚ
  first_seen : String
  last_seen : String
deriving DecidableEq, Repr

/-- `max(scores)` (applied only to non-empty lists). -/
def qMax (l : List ℚ) : ℚ := l.foldl max (l.headD 0)

/-- The per-group body of `analyze_trend_persistence` (run on groups with at
least 2 entries): sort by timestamp (stable), then build the record. -/
def persistRecordOf (entries : List PPoint) : PersistRecord :=
  let sorted := entries.mergeSort (fun a b => decide (a.timestamp ≤ b.timestamp))
  let scores := sorted.map PPoint.score
  let first_seen := (sorted.headD ⟨"", 0⟩).timestamp
  let last_seen := (sorted.getLastD ⟨"", 0⟩).timestamp
  let first := scores.headD 0
  let lastv := scores.getLastD 0
  let trend_direction :=
    if 2 ≤ scores.length then
      (if first * 1.1 < lastv then "increasing"
       else if lastv < first * 0.9 then "decreasing"
       else "stable")
    else "stable"
  { lifespan_days := lifespanDays first_seen last_seen
    entry_count := entries.length
    trend_direction := trend_direction
    volatility_sq := if 1 < scores.length then sampleVar scores else 0
    current_score := lastv
    peak_score := qMax scores
    first_seen := first_seen
    last_seen := last_seen }

/-- `TrendAnalyzer.analyze_trend_persistence`; `now` as in `detect_spikes`. -/
def analyze_trend_persistence (trend_history : List TrendEntry) (now : String) :
    List (String × PersistRecord) :=
  if trend_history.isEmpty then []
  else
    (buildLifespans trend_history now).filterMap (fun g =>
      if g.2.length < 2 then none else some (g.1, persistRecordOf g.2))

/-- A current-trend dict as read by `predict_emerging_trends`. -/
structure CTrend where
  name : Option String
  topic : Option String
  composite_score : Option ℚ
  relevance_score : Option ℚ
deriving DecidableEq, Repr

/-- `trend.get('name', trend.get('topic', ''))`. -/
def ctrendName (t : CTrend) : String := t.name.getD (t.topic.getD (""))

/-- `trend.get('composite_score', trend.get('relevance_score', 0))`. -/
def ctrendScore (t : CTrend) : ℚ := t.composite_score.getD (t.relevance_score.getD 0)

structure Prediction where
  trend_name : String
  prediction_type : String
  confidence : ℚ
  reason : String
  predicted_lifespan : String
deriving DecidableEq, Repr

/-- The per-trend body of the `for trend in current_trends` loop of
`predict_emerging_trends`: at most one prediction per current trend
(`trend_name not in persistence_data` is key lookup in the persistence dict). -/
def mkPrediction (persistence : List (String × PersistRecord)) (t : CTrend) :
    Option Prediction :=
  let name := ctrendName t
  let score := ctrendScore t
  match persistence.lookup name with
  | none =>
    if 0.6 < score then
      some { trend_name := name
             prediction_type := "new_emerging"
             confidence := min score 0.9
             reason := "High initial score for new trend"
             predicted_lifespan := if 0.8 < score then "short" else "medium" }
    else none
  | some hd =>
    if hd.trend_direction = "increasing" ∧ hd.peak_score < score then
      some { trend_name := name
             prediction_type := "accelerating"
             confidence := 0.8
             reason := "Trend is accelerating beyond historical peak"
             predicted_lifespan := if 7 < hd.lifespan_days then "long" else "medium" }
    else none

/-- `TrendAnalyzer.predict_emerging_trends`: one candidate prediction per
current trend, stably sorted by confidence descending, truncated to 5;
empty history or empty current trends short-circuit to `[]`. -/
def predict_emerging_trends (trend_history : List TrendEntry)
    (current_trends : List CTrend) (now : String) : List Prediction :=
  if trend_history.isEmpty || current_trends.isEmpty then []
  else
    ((current_trends.filterMap
        (mkPrediction (analyze_trend_persistence trend_history now))).mergeSort
      (fun a b => decide (b.confidence ≤ a.confidence))).take 5

/-! ### Concrete inputs used by witnesses and counterexamples -/

/-- A well-formed trend-history entry (name, timestamp, composite score,
frequency all present). -/
def histEntry (ts : String) (sc fr : ℚ) : TrendEntry :=
  { name := some ("q"), topic := none, timestamp := some ts,
    composite_score := some sc, relevance_score := none, frequency := some fr }

/-- A trend group with exactly `window_size = 7` entries whose last score
stands out. -/
def tdExact7 : List TrendEntry :=
  [histEntry ("2024-01-01") 0 0, histEntry ("2024-01-02") 0 0,
   histEntry ("2024-01-03") 0 0, histEntry ("2024-01-04") 0 0,
   histEntry ("2024-01-05") 0 0, histEntry ("2024-01-06") 0 0,
   histEntry ("2024-01-07") 1 0]

/-- Nine entries of one trend: baseline scores `[0, 2]`, a spiking recent
score `4`, and all frequencies 0. -/
def tdFreqBug : List TrendEntry :=
  [histEntry ("2024-01-01") 0 0, histEntry ("2024-01-02") 2 0,
   histEntry ("2024-01-03") 1 0, histEntry ("2024-01-04") 1 0,
   histEntry ("2024-01-05") 1 0, histEntry ("2024-01-06") 1 0,
   histEntry ("2024-01-07") 1 0, histEntry ("2024-01-08") 1 0,
   histEntry ("2024-01-09") 4 0]

/-- Nine entries of one trend with positive baseline frequencies and two
spiking recent scores (4 and 5). -/
def tdTwoSpikes : List TrendEntry :=
  [histEntry ("2024-01-01") 0 1, histEntry ("2024-01-02") 2 1,
   histEntry ("2024-01-03") 1 0, histEntry ("2024-01-04") 1 0,
   histEntry ("2024-01-05") 1 0, histEntry ("2024-01-06") 1 0,
   histEntry ("2024-01-07") 1 0, histEntry ("2024-01-08") 4 0,
   histEntry ("2024-01-09") 5 0]

/-- A series of seven points with constant score 1. -/
def ptsConst7 : List HPoint :=
  [⟨"2024-01-01", 1, 0⟩, ⟨"2024-01-02", 1, 0⟩, ⟨"2024-01-03", 1, 0⟩,
   ⟨"2024-01-04", 1, 0⟩, ⟨"2024-01-05", 1, 0⟩, ⟨"2024-01-06", 1, 0⟩,
   ⟨"2024-01-07", 1, 0⟩]

/-- Three entries of one trend with constant score 1. -/
def tdConst : List TrendEntry :=
  [histEntry ("2024-01-01") 1 0, histEntry ("2024-01-02") 1 0,
   histEntry ("2024-01-03") 1 0]

/-- An article whose only text is a two-word title. -/
def bigramArticle (t : String) : Article :=
  { source := "", title := t, content := "", published := "" }

/-- Sixteen articles, each contributing one distinct bigram. -/
def batchA : List Article :=
  [bigramArticle ("b01 c01"), bigramArticle ("b02 c02"), bigramArticle ("b03 c03"),
   bigramArticle ("b04 c04"), bigramArticle ("b05 c05"), bigramArticle ("b06 c06"),
   bigramArticle ("b07 c07"), bigramArticle ("b08 c08"), bigramArticle ("b09 c09"),
   bigramArticle ("b10 c10"), bigramArticle ("b11 c11"), bigramArticle ("b12 c12"),
   bigramArticle ("b13 c13"), bigramArticle ("b14 c14"), bigramArticle ("b15 c15"),
   bigramArticle ("b16 c16")]

/-- The same sixteen articles with the first and last swapped. -/
def batchB : List Article :=
  [bigramArticle ("b16 c16"), bigramArticle ("b02 c02"), bigramArticle ("b03 c03"),
   bigramArticle ("b04 c04"), bigramArticle ("b05 c05"), bigramArticle ("b06 c06"),
   bigramArticle ("b07 c07"), bigramArticle ("b08 c08"), bigramArticle ("b09 c09"),
   bigramArticle ("b10 c10"), bigramArticle ("b11 c11"), bigramArticle ("b12 c12"),
   bigramArticle ("b13 c13"), bigramArticle ("b14 c14"), bigramArticle ("b15 c15"),
   bigramArticle ("b01 c01")]

/-- A one-entry history (its single group has fewer than 2 entries, so the
persistence data is empty while the history itself is not). -/
def histOne : List TrendEntry := [histEntry ("2024-01-01") 1 0]

/-- A current trend carrying only a `relevance_score` of 0.75. -/
def trendNew : CTrend :=
  { name := some ("newt"), topic := none,
    composite_score := none, relevance_score := some (3 / 4) }

/-- A small article batch for scoring witnesses. -/
def articlesW : List Article :=
  [{ source := "https://github.com/u/v", title := "alpha beta",
     content := "alpha beta alpha beta", published := "" }]

/-- A trend with one supporting article, for the scoring witness. -/
def strendW : STrend :=
  { supporting_articles := [{ title := "alpha beta", source := "https://github.com/u/v",
                              published := "" }],
    composite_score := 0, recency_score := 0, frequency_score := 0, authority_score := 0 }

/-! ### Helper lemmas -/

theorem baselineOf_mem {scores : List ℚ} {w : ℕ} {x : ℚ}
    (hx : x ∈ baselineOf scores w) : x ∈ scores := by
  unfold baselineOf at hx
  split at hx
  · split at hx
    · simp at hx
    · exact List.mem_of_mem_take hx
  · exact hx

theorem sampleVar_const {l : List ℚ} {c : ℚ} (h : ∀ x ∈ l, x = c) :
    sampleVar l = 0 := by
  rcases l with _ | ⟨a, as⟩
  · simp [sampleVar]
  · have hlen : (((a :: as).length : ℚ)) ≠ 0 := by
      exact_mod_cast Nat.cast_ne_zero.mpr (by simp)
    have hsum : (a :: as).sum = ((a :: as).length : ℚ) * c := by
      have := List.sum_eq_card_nsmul (a :: as) c h
      simpa [nsmul_eq_mul] using this
    have hmean : qMean (a :: as) = c := by
      unfold qMean
      rw [hsum]
      field_simp
    have hz : ∀ x ∈ (a :: as).map (fun x => (x - qMean (a :: as)) ^ 2), x = 0 := by
      intro x hx
      simp only [List.mem_map] at hx
      obtain ⟨y, hy, rfl⟩ := hx
      rw [hmean, h y hy]
      ring
    unfold sampleVar
    rw [List.sum_eq_zero hz]
    exact zero_div _

theorem spikesForSeries_eq_nil {name : String} {series : List HPoint} {w : ℕ}
    (h : (baselineOf (series.map HPoint.score) w).length < 2 ∨
      sampleVar (baselineOf (series.map HPoint.score) w) = 0) :
    spikesForSeries name series w = Except.ok [] := by
  unfold spikesForSeries
  dsimp only
  split
  · split
    · rfl
    · have hv : (if 1 < (baselineOf (series.map HPoint.score) w).length then
          sampleVar (baselineOf (series.map HPoint.score) w) else 0) = 0 := by
        rcases h with h | h
        · rw [if_neg (by omega)]
        · split <;> [exact h; rfl]
      rw [hv]
      rw [if_neg (by norm_num)]
  · rfl

theorem spikesForSeries_const_nil {name : String} {series : List HPoint} {w : ℕ}
    {c : ℚ} (h : ∀ p ∈ series, p.score = c) :
    spikesForSeries name series w = Except.ok [] := by
  apply spikesForSeries_eq_nil
  right
  apply sampleVar_const
  intro x hx
  have hx' := baselineOf_mem hx
  simp only [List.mem_map] at hx'
  obtain ⟨p, hp, rfl⟩ := hx'
  exact h p hp

theorem addToGroups_mem {β : Type} {gs : List (String × List β)} {k : String}
    {v : β} {g : String × List β} (hg : g ∈ addToGroups gs k v) :
    ∀ p ∈ g.2, (∃ g' ∈ gs, p ∈ g'.2) ∨ p = v := by
  induction gs with
  | nil =>
    intro p hp
    simp only [addToGroups, List.mem_singleton] at hg
    subst hg
    simp at hp
    right
    exact hp
  | cons hd tl ih =>
    intro p hp
    obtain ⟨n, vs⟩ := hd
    simp only [addToGroups] at hg
    split at hg
    · rcases List.mem_cons.mp hg with hg | hg
      · subst hg
        rcases List.mem_append.mp hp with hp | hp
        · exact Or.inl ⟨(n, vs), List.mem_cons_self _ _, hp⟩
        · exact Or.inr (List.mem_singleton.mp hp)
      · exact Or.inl ⟨g, List.mem_cons_of_mem _ hg, hp⟩
    · rcases List.mem_cons.mp hg with hg | hg
      · subst hg
        exact Or.inl ⟨(n, vs), List.mem_cons_self _ _, hp⟩
      · rcases ih hg p hp with ⟨g', hg', hp'⟩ | hp'
        · exact Or.inl ⟨g', List.mem_cons_of_mem _ hg', hp'⟩
        · exact Or.inr hp'

theorem buildSeries_scores {td : List TrendEntry} {now : String} {c : ℚ}
    (h : ∀ e ∈ td, entryScore e = c) :
    ∀ g ∈ buildSeries td now, ∀ p ∈ g.2, p.score = c := by
  unfold buildSeries
  suffices H : ∀ (l : List TrendEntry) (gs : List (String × List HPoint)),
      (∀ e ∈ l, entryScore e = c) →
      (∀ g ∈ gs, ∀ p ∈ g.2, p.score = c) →
      ∀ g ∈ l.foldl (fun gs e => addToGroups gs (entryName e) (mkHPoint e now)) gs,
        ∀ p ∈ g.2, p.score = c by
    exact H td [] h (by simp)
  intro l
  induction l with
  | nil => intro gs _ hgs; simpa using hgs
  | cons e tl ih =>
    intro gs hl hgs
    simp only [List.foldl_cons]
    apply ih
    · intro x hx
      exact hl x (List.mem_cons_of_mem _ hx)
    · intro g hg p hp
      rcases addToGroups_mem hg p hp with ⟨g', hg', hp'⟩ | hp'
      · exact hgs g' hg' p hp'
      · subst hp'
        show (mkHPoint e now).score = c
        simp [mkHPoint, hl e (List.mem_cons_self _ _)]

theorem spikesOfGroups_const_nil {w : ℕ} {gs : List (String × List HPoint)} {c : ℚ}
    (h : ∀ g ∈ gs, ∀ p ∈ g.2, p.score = c) :
    spikesOfGroups w gs = Except.ok [] := by
  induction gs with
  | nil => rfl
  | cons g tl ih =>
    obtain ⟨n, ps⟩ := g
    have hps : ∀ p ∈ ps.mergeSort (fun a b => decide (a.timestamp ≤ b.timestamp)),
        p.score = c := by
      intro p hp
      exact h (n, ps) (List.mem_cons_self _ _) p (List.mem_mergeSort.mp hp)
    have htl : spikesOfGroups w tl = Except.ok [] :=
      ih (fun g hg => h g (List.mem_cons_of_mem _ hg))
    simp only [spikesOfGroups]
    split
    · exact htl
    · rw [spikesForSeries_const_nil hps, htl]
      rfl

theorem detect_spikes_const_nil {td : List TrendEntry} {w : ℕ} {now : String}
    {c : ℚ} (h : ∀ e ∈ td, entryScore e = c) :
    detect_spikes td w now = Except.ok [] := by
  unfold detect_spikes
  split
  · rfl
  · rw [spikesOfGroups_const_nil (buildSeries_scores h)]
    simp [List.mergeSort_nil]

/-! ### C1 -/

/-- C1: `detect_spikes` never divides by a zero or undefined baseline standard
deviation.  Per trend group (`spikesForSeries` is the per-group body of
`detect_spikes`): when the baseline has fewer than 2 points, or its sample
standard deviation is 0 (equivalently its sample variance `sampleVar` is 0),
no spike is reported for that trend; in particular a group with constant
scores reports no spike, and a whole history with constant scores makes
`detect_spikes` return no spike at all (and no error). -/
theorem detect_spikes_no_zero_std_division :
    (∀ (name : String) (series : List HPoint) (w : ℕ) (c : ℚ),
      ((baselineOf (series.map HPoint.score) w).length < 2 ∨
        sampleVar (baselineOf (series.map HPoint.score) w) = 0 ∨
        (∀ p ∈ series, p.score = c)) →
      spikesForSeries name series w = Except.ok []) ∧
    (∀ (td : List TrendEntry) (w : ℕ) (now : String) (c : ℚ),
      (∀ e ∈ td, entryScore e = c) → detect_spikes td w now = Except.ok []) := by
  constructor
  · intro name series w c h
    rcases h with h | h | h
    · exact spikesForSeries_eq_nil (Or.inl h)
    · exact spikesForSeries_eq_nil (Or.inr h)
    · exact spikesForSeries_const_nil h
  · intro td w now c h
    exact detect_spikes_const_nil h

/-- Witness for C1 at a concrete constant series and a concrete constant
history. -/
theorem detect_spikes_no_zero_std_division_witness :
    spikesForSeries ("q") ptsConst7 7 = Except.ok [] ∧
    detect_spikes tdConst 2 ("x") = Except.ok [] :=
  ⟨detect_spikes_no_zero_std_division.1 ("q") ptsConst7 7 1
      (Or.inr (Or.inr (by decide))),
   detect_spikes_no_zero_std_division.2 tdConst 2 ("x") 1 (by decide)⟩

/-! ### C2 -/

/-- C2 (code bug evidence): on a well-formed history — nine entries of one
trend, baseline scores `[0, 2]`, a spiking recent score 4, all frequencies 0 —
`detect_spikes` with the default `window_size = 7` raises
`statistics.StatisticsError` (`mean requires at least one data point`) from the
`spike_type` computation instead of recovering locally, contradicting the
claim that no fatal error surfaces under normal batch input. -/
theorem detect_spikes_raises_on_normal_input :
    detect_spikes tdFreqBug 7 ("x") =
      Except.error ("mean requires at least one data point") := by
  with_unfolding_all decide

/-! ### C3 -/

/-- C3 counterexample: on a trend group with exactly `window_size` entries the
baseline is the *entire* series, not the empty list, and spike computation
proceeds (here all the way into the `statistics.mean([])` error, rather than
"no spike is computed"). -/
theorem baseline_not_empty_at_window_size :
    baselineOf ([0, 0, 0, 0, 0, 0, 1]) 7 = [0, 0, 0, 0, 0, 0, 1] ∧
    detect_spikes tdExact7 7 ("x") =
      Except.error ("mean requires at least one data point") := by
  constructor
  · with_unfolding_all decide
  · with_unfolding_all decide

/-- C3 (amended): for `window_size ≥ 1`, a retained trend group with *more*
than `window_size` entries is split with the baseline exactly all but the last
`window_size` points and the recent window exactly the last `window_size`
points; with exactly `window_size` entries the code instead uses the whole
series as both baseline and recent window (so the baseline is not empty and a
spike can be computed for that group). -/
theorem baseline_recent_split (scores : List ℚ) (w : ℕ) (hw : 1 ≤ w) :
    (w < scores.length →
      baselineOf scores w = scores.take (scores.length - w) ∧
      recentOf scores w = scores.drop (scores.length - w) ∧
      baselineOf scores w ++ recentOf scores w = scores ∧
      (recentOf scores w).length = w) ∧
    (scores.length = w →
      baselineOf scores w = scores ∧ recentOf scores w = scores) := by
  constructor
  · intro hlen
    have hw0 : w ≠ 0 := by omega
    have hb : baselineOf scores w = scores.take (scores.length - w) := by
      unfold baselineOf
      rw [if_pos hlen, if_neg hw0]
    have hr : recentOf scores w = scores.drop (scores.length - w) := by
      unfold recentOf
      rw [if_neg hw0]
    refine ⟨hb, hr, ?_, ?_⟩
    · rw [hb, hr]
      exact List.take_append_drop _ _
    · rw [hr, List.length_drop]
      omega
  · intro hlen
    have hw0 : w ≠ 0 := by omega
    constructor
    · unfold baselineOf
      rw [if_neg (by omega)]
    · unfold recentOf
      rw [if_neg hw0, hlen]
      simp

/-- Witness for the amended C3 at concrete inputs. -/
theorem baseline_recent_split_witness :
    baselineOf ([5, 6, 7]) 2 = [5] ∧ recentOf ([5, 6, 7]) 2 = [6, 7] ∧
    baselineOf ([5, 6]) 2 = [5, 6] ∧ recentOf ([5, 6]) 2 = [5, 6] :=
  ⟨((baseline_recent_split ([5, 6, 7]) 2 (by decide)).1 (by decide)).1,
   ((baseline_recent_split ([5, 6, 7]) 2 (by decide)).1 (by decide)).2.1,
   ((baseline_recent_split ([5, 6]) 2 (by decide)).2 (by decide)).1,
   ((baseline_recent_split ([5, 6]) 2 (by decide)).2 (by decide)).2⟩

/-! ### C10 -/

/-- C10: `extract_ngrams` applies no minimum word-length filter — a window is
dropped only for stop words — so on the text `"ai boom"` the bigram
`"ai boom"` is returned although `"ai"` (length 2, not a stop word) is dropped
by `extract_keywords` under its default `min_length = 3`. -/
theorem extract_ngrams_no_min_length_filter :
    extract_ngrams ("ai boom") 2 = ["ai boom"] ∧
    extract_keywords ("ai boom") 3 = ["boom"] ∧
    ("ai").length < 3 ∧
    stop_words.contains ("ai") = false := by
  with_unfolding_all decide

/-! ### C4 -/

theorem insertCount_lookup (acc : List (String × ℕ)) (t s : String) :
    (insertCount acc t).lookup s =
      if t = s then some (((acc.lookup s).getD 0) + 1) else acc.lookup s := by
  induction acc with
  | nil =>
    by_cases h : t = s
    · subst h
      simp [insertCount, List.lookup]
    · simp [insertCount, List.lookup, h, beq_false_of_ne (Ne.symm h)]
  | cons kv rest ih =>
    obtain ⟨k, c⟩ := kv
    simp only [insertCount]
    by_cases hk : k = t
    · subst hk
      rw [if_pos rfl]
      by_cases hs : k = s
      · subst hs
        simp [List.lookup]
      · simp [List.lookup, beq_false_of_ne (Ne.symm hs), hs]
    · rw [if_neg hk]
      by_cases hs : k = s
      · subst hs
        have ht' : ¬ t = k := fun he => hk he.symm
        simp [List.lookup, ht']
      · simp [List.lookup, beq_false_of_ne (Ne.symm hs), ih]

theorem counterList_foldl_lookup (l : List String) (acc : List (String × ℕ))
    (s : String) :
    (l.foldl insertCount acc).lookup s =
      if l.count s = 0 then acc.lookup s
      else some (((acc.lookup s).getD 0) + l.count s) := by
  induction l generalizing acc with
  | nil => simp
  | cons t ts ih =>
    simp only [List.foldl_cons]
    rw [ih]
    by_cases ht : t = s
    · subst ht
      rw [insertCount_lookup, if_pos rfl]
      have hc : (t :: ts).count t = ts.count t + 1 := by simp [List.count_cons]
      rw [hc]
      by_cases h0 : ts.count t = 0
      · simp [h0]
      · simp only [h0, if_false, Nat.succ_ne_zero, Option.getD_some, Option.some.injEq]
        omega
    · rw [insertCount_lookup, if_neg ht]
      have hst : ¬ s = t := fun he => ht he.symm
      have hc : (t :: ts).count s = ts.count s := by
        simp [List.count_cons, hst]
      rw [hc]

theorem counterList_lookup (l : List String) (s : String) :
    (counterList l).lookup s =
      if l.count s = 0 then none else some (l.count s) := by
  unfold counterList
  rw [counterList_foldl_lookup]
  simp [List.lookup]

/-- C4 counterexample: `batchB` is a permutation of `batchA`, yet the returned
top-15 bigram mappings differ — `"b16 c16"` is absent from one and maps to 1 in
the other — because `dict(Counter.most_common(15))` breaks count ties by
insertion order. -/
theorem analyze_article_frequency_not_perm_invariant :
    batchA.Perm batchB ∧
    (analyze_article_frequency batchA).bigrams.lookup ("b16 c16") = none ∧
    (analyze_article_frequency batchB).bigrams.lookup ("b16 c16") = some 1 := by
  refine ⟨?_, ?_, ?_⟩
  · with_unfolding_all decide
  · with_unfolding_all decide
  · with_unfolding_all decide

/-- C4 (amended): for every batch and permutation of it, the keyword and
bigram *counts* agree — both as occurrence counts of every term and as the
full `Counter` mappings `analyze_article_frequency` builds — i.e. aggregation
is order-independent; only the truncated top-20/top-15 mappings may differ at
count ties (see the counterexample). -/
theorem analyze_article_frequency_counts_perm_invariant
    (b1 b2 : List Article) (h : b1.Perm b2) (s : String) :
    (allKeywords b1).count s = (allKeywords b2).count s ∧
    (allBigrams b1).count s = (allBigrams b2).count s ∧
    (counterList (allKeywords b1)).lookup s = (counterList (allKeywords b2)).lookup s ∧
    (counterList (allBigrams b1)).lookup s = (counterList (allBigrams b2)).lookup s := by
  have hk : (allKeywords b1).count s = (allKeywords b2).count s :=
    (List.Perm.flatMap_right _ h).count_eq s
  have hb : (allBigrams b1).count s = (allBigrams b2).count s :=
    (List.Perm.flatMap_right _ h).count_eq s
  refine ⟨hk, hb, ?_, ?_⟩
  · rw [counterList_lookup, counterList_lookup, hk]
  · rw [counterList_lookup, counterList_lookup, hb]

/-- Witness for the amended C4 at the concrete permuted batches. -/
theorem analyze_article_frequency_counts_perm_invariant_witness :
    (allKeywords batchA).count ("b01") = (allKeywords batchB).count ("b01") ∧
    (counterList (allBigrams batchA)).lookup ("b01 c01") =
      (counterList (allBigrams batchB)).lookup ("b01 c01") :=
  ⟨(analyze_article_frequency_counts_perm_invariant batchA batchB
      (by with_unfolding_all decide) ("b01")).1,
   (analyze_article_frequency_counts_perm_invariant batchA batchB
      (by with_unfolding_all decide) ("b01 c01")).2.2.2⟩

/-! ### C7 -/

theorem mkTopics_mem {pairs : List (String × ℕ)} {ty : String} {n : ℕ}
    {t : Topic} (ht : t ∈ mkTopics pairs ty n) :
    2 ≤ t.frequency ∧
    t.relevance_score = (if n = 0 then 0 else (t.frequency : ℚ) / n) := by
  unfold mkTopics at ht
  obtain ⟨p, _, hp⟩ := List.mem_filterMap.mp ht
  by_cases h2 : 2 ≤ p.2
  · rw [if_pos h2] at hp
    injection hp with hp
    subst hp
    exact ⟨h2, rfl⟩
  · rw [if_neg h2] at hp
    cases hp

/-- C7: for a non-empty batch, `detect_emerging_topics` returns at most 15
topics, every topic has `frequency ≥ 2` and
`relevance_score = frequency / article_count`, and the list is sorted by
`relevance_score` descending. -/
theorem detect_emerging_topics_spec (articles : List Article)
    (h : articles ≠ []) :
    (detect_emerging_topics articles).length ≤ 15 ∧
    (∀ t ∈ detect_emerging_topics articles,
      2 ≤ t.frequency ∧ t.relevance_score = (t.frequency : ℚ) / articles.length) ∧
    (detect_emerging_topics articles).Sorted
      (fun a b => b.relevance_score ≤ a.relevance_score) := by
  have hn : articles.length ≠ 0 := by
    simpa [List.length_eq_zero] using h
  unfold detect_emerging_topics
  dsimp only
  refine ⟨List.length_take_le _ _, ?_, ?_⟩
  · intro t ht
    have ht' := List.mem_mergeSort.mp (List.mem_of_mem_take ht)
    rcases List.mem_append.mp ht' with ht'' | ht'' <;>
      simpa [hn] using mkTopics_mem ht''
  · have hs := @List.sorted_mergeSort Topic
      (fun a b => decide (b.relevance_score ≤ a.relevance_score))
      (fun a b c hab hbc => by
        simp only [decide_eq_true_eq] at *
        exact le_trans hbc hab)
      (fun a b => by
        simp only [Bool.or_eq_true, decide_eq_true_eq]
        exact le_total _ _)
      (mkTopics (analyze_article_frequency articles).keywords ("keyword") articles.length ++
        mkTopics (analyze_article_frequency articles).bigrams ("bigram") articles.length)
    exact ((hs.sublist (List.take_sublist _ _)).imp (fun h => by
      simpa using h))

/-- Witness for C7 at a concrete one-article batch. -/
theorem detect_emerging_topics_spec_witness :
    (detect_emerging_topics articlesW).length ≤ 15 ∧
    (∀ t ∈ detect_emerging_topics articlesW,
      2 ≤ t.frequency ∧ t.relevance_score = (t.frequency : ℚ) / articlesW.length) ∧
    (detect_emerging_topics articlesW).Sorted
      (fun a b => b.relevance_score ≤ a.relevance_score) :=
  detect_emerging_topics_spec articlesW (by with_unfolding_all decide)

/-! ### C5 -/

theorem sourceAuthorityLookup_bounds (articles : List Article) (source : String) :
    0 ≤ sourceAuthorityLookup articles source ∧
    sourceAuthorityLookup articles source ≤ 1 := by
  unfold sourceAuthorityLookup sourceAuthorityValue
  dsimp only
  split_ifs <;> norm_num

theorem scoreTrend_fields (articles : List Article) (t : STrend) :
    (scoreTrend articles t).composite_score =
      0.4 * (scoreTrend articles t).recency_score +
      0.3 * (scoreTrend articles t).frequency_score +
      0.3 * (scoreTrend articles t).authority_score ∧
    (0 ≤ (scoreTrend articles t).recency_score ∧ (scoreTrend articles t).recency_score ≤ 1) ∧
    (0 ≤ (scoreTrend articles t).frequency_score ∧ (scoreTrend articles t).frequency_score ≤ 1) ∧
    (0 ≤ (scoreTrend articles t).authority_score ∧ (scoreTrend articles t).authority_score ≤ 1) := by
  unfold scoreTrend
  dsimp only
  refine ⟨rfl, ?_, ?_, ?_⟩
  · split
    · constructor
      · exact le_min (by positivity) (by norm_num)
      · exact min_le_right _ _
    · norm_num
  · constructor
    · exact le_min (by positivity) (by norm_num)
    · exact min_le_right _ _
  · split
    · rename_i hlen
      have hl : 0 < (t.supporting_articles.length : ℚ) := by
        exact_mod_cast Nat.pos_of_ne_zero hlen
      constructor
      · apply div_nonneg _ (le_of_lt hl)
        apply List.sum_nonneg
        intro x hx
        obtain ⟨sa, _, rfl⟩ := List.mem_map.mp hx
        exact (sourceAuthorityLookup_bounds articles sa.source).1
      · rw [div_le_one hl]
        calc (t.supporting_articles.map
              (fun s => sourceAuthorityLookup articles s.source)).sum
            ≤ (t.supporting_articles.map
              (fun s => sourceAuthorityLookup articles s.source)).length • (1 : ℚ) := by
              apply List.sum_le_card_nsmul
              intro x hx
              obtain ⟨sa, _, rfl⟩ := List.mem_map.mp hx
              exact (sourceAuthorityLookup_bounds articles sa.source).2
          _ = (t.supporting_articles.length : ℚ) := by
              simp [nsmul_eq_mul]
    · norm_num

/-- C5: for non-empty trends and articles, every trend returned by
`calculate_trend_scores` satisfies
`composite_score = 0.4·recency + 0.3·frequency + 0.3·authority`, all four
scores lie in `[0, 1]`, and the list is sorted by `composite_score`
descending. -/
theorem calculate_trend_scores_spec (trends : List STrend) (articles : List Article)
    (ht : trends ≠ []) (ha : articles ≠ []) :
    (∀ t ∈ calculate_trend_scores trends articles,
      t.composite_score =
        0.4 * t.recency_score + 0.3 * t.frequency_score + 0.3 * t.authority_score ∧
      (0 ≤ t.recency_score ∧ t.recency_score ≤ 1) ∧
      (0 ≤ t.frequency_score ∧ t.frequency_score ≤ 1) ∧
      (0 ≤ t.authority_score ∧ t.authority_score ≤ 1) ∧
      (0 ≤ t.composite_score ∧ t.composite_score ≤ 1)) ∧
    (calculate_trend_scores trends articles).Sorted
      (fun a b => b.composite_score ≤ a.composite_score) := by
  unfold calculate_trend_scores
  rw [if_neg (by simp [List.isEmpty_iff, ht, ha])]
  constructor
  · intro t htm
    have := List.mem_mergeSort.mp htm
    obtain ⟨t0, _, rfl⟩ := List.mem_map.mp this
    obtain ⟨hc, hr, hf, hau⟩ := scoreTrend_fields articles t0
    refine ⟨hc, hr, hf, hau, ?_⟩
    constructor
    · rw [hc]; linarith [hr.1, hf.1, hau.1]
    · rw [hc]; linarith [hr.2, hf.2, hau.2]
  · have hs := @List.sorted_mergeSort STrend
      (fun a b => decide (b.composite_score ≤ a.composite_score))
      (fun a b c hab hbc => by
        simp only [decide_eq_true_eq] at *
        exact le_trans hbc hab)
      (fun a b => by
        simp only [Bool.or_eq_true, decide_eq_true_eq]
        exact le_total _ _)
      (trends.map (scoreTrend articles))
    exact hs.imp (fun h => by simpa using h)

/-- Witness for C5 at a concrete one-trend, one-article input. -/
theorem calculate_trend_scores_spec_witness :
    (∀ t ∈ calculate_trend_scores [strendW] articlesW,
      t.composite_score =
        0.4 * t.recency_score + 0.3 * t.frequency_score + 0.3 * t.authority_score ∧
      (0 ≤ t.recency_score ∧ t.recency_score ≤ 1) ∧
      (0 ≤ t.frequency_score ∧ t.frequency_score ≤ 1) ∧
      (0 ≤ t.authority_score ∧ t.authority_score ≤ 1) ∧
      (0 ≤ t.composite_score ∧ t.composite_score ≤ 1)) ∧
    (calculate_trend_scores [strendW] articlesW).Sorted
      (fun a b => b.composite_score ≤ a.composite_score) :=
  calculate_trend_scores_spec [strendW] articlesW
    (by with_unfolding_all decide) (by with_unfolding_all decide)

/-! ### C9 -/

/-- C9 counterexample: `" "` is a non-empty string, yet
`similarity(" ", " ") = 0`, not 1 — a whitespace-only string tokenizes to no
words and hits the empty-set guard. -/
theorem calculate_similarity_whitespace :
    (" " : String) ≠ "" ∧ calculate_similarity (" ") (" ") = 0 := by
  constructor
  · with_unfolding_all decide
  · with_unfolding_all decide

/-- C9 (amended): the word-overlap similarity is symmetric for all strings,
and `similarity(a, a) = 1` for every string `a` containing at least one
non-whitespace character (i.e. whose whitespace tokenization `pySplit a` is
non-empty); a non-empty but all-whitespace string instead yields 0. -/
theorem calculate_similarity_props :
    (∀ a b, calculate_similarity a b = calculate_similarity b a) ∧
    (∀ a, pySplit a ≠ [] → calculate_similarity a a = 1) := by
  constructor
  · intro a b
    unfold calculate_similarity
    dsimp only
    by_cases h1 : (pySplit a).toFinset = ∅ <;> by_cases h2 : (pySplit b).toFinset = ∅
    · simp [h1, h2]
    · simp [h1, h2]
    · simp [h1, h2]
    · have hu : (pySplit a).toFinset ∪ (pySplit b).toFinset ≠ ∅ := by
        intro h
        exact h1 (Finset.union_eq_empty.mp h).1
      have hu' : (pySplit b).toFinset ∪ (pySplit a).toFinset ≠ ∅ := by
        intro h
        exact h2 (Finset.union_eq_empty.mp h).1
      simp [h1, h2, hu, hu',
        Finset.inter_comm ((pySplit a).toFinset) ((pySplit b).toFinset),
        Finset.union_comm ((pySplit a).toFinset) ((pySplit b).toFinset)]
  · intro a ha
    have hne : (pySplit a).toFinset ≠ ∅ := by
      simpa [List.toFinset_eq_empty_iff] using ha
    unfold calculate_similarity
    dsimp only
    rw [if_neg (by tauto), Finset.inter_self, Finset.union_self, if_neg hne]
    rw [div_self]
    exact Nat.cast_ne_zero.mpr (fun hc => hne (Finset.card_eq_zero.mp hc))

/-- Witness for the amended C9 at concrete strings. -/
theorem calculate_similarity_props_witness :
    calculate_similarity ("hello world") ("world hello") =
      calculate_similarity ("world hello") ("hello world") ∧
    calculate_similarity ("hello world") ("hello world") = 1 :=
  ⟨calculate_similarity_props.1 ("hello world") ("world hello"),
   calculate_similarity_props.2 ("hello world") (by with_unfolding_all decide)⟩

/-! ### C8 -/

/-- C8 counterexample: with an *empty* trend history, a current trend absent
from the (empty) persistence data with score 0.75 > 0.6 is *not* included —
`predict_emerging_trends` short-circuits to `[]` — contradicting the claim as
stated for every trend history. -/
theorem predict_empty_history :
    (0.6 : ℚ) < ctrendScore trendNew ∧
    (analyze_trend_persistence [] ("x")).lookup (ctrendName trendNew) = none ∧
    predict_emerging_trends [] [trendNew] ("x") = [] := by
  refine ⟨?_, ?_, ?_⟩ <;> with_unfolding_all decide

/-- C8 (amended): for a *non-empty* trend history and at most 5 current
trends, any current trend whose name is absent from the historical persistence
data and whose score (`composite_score`, falling back to `relevance_score`)
exceeds 0.6 is included as `new_emerging` with `confidence = min(score, 0.9)`
and `predicted_lifespan` `short` if the score exceeds 0.8, else `medium` (so a
trend with `relevance_score = 0.75` gets confidence 0.75 and lifespan
`medium`); the bound on the number of current trends keeps the prediction
inside the 5-element truncation of the output. -/
theorem predict_includes_new_high_scoring (history : List TrendEntry)
    (current : List CTrend) (now : String) (t : CTrend)
    (hh : history ≠ []) (hlen : current.length ≤ 5) (hmem : t ∈ current)
    (habs : (analyze_trend_persistence history now).lookup (ctrendName t) = none)
    (hsc : 0.6 < ctrendScore t) :
    ∃ p ∈ predict_emerging_trends history current now,
      p.trend_name = ctrendName t ∧ p.prediction_type = "new_emerging" ∧
      p.confidence = min (ctrendScore t) 0.9 ∧
      p.predicted_lifespan = (if 0.8 < ctrendScore t then "short" else "medium") := by
  have hcur : current ≠ [] := by
    intro hc
    rw [hc] at hmem
    cases hmem
  unfold predict_emerging_trends
  rw [if_neg (by simp [List.isEmpty_iff, hh, hcur])]
  set pat : Prediction :=
    { trend_name := ctrendName t
      prediction_type := "new_emerging"
      confidence := min (ctrendScore t) 0.9
      reason := "High initial score for new trend"
      predicted_lifespan := if 0.8 < ctrendScore t then "short" else "medium" } with hpat
  have hmk : mkPrediction (analyze_trend_persistence history now) t = some pat := by
    unfold mkPrediction
    dsimp only
    rw [habs]
    dsimp only
    rw [if_pos hsc]
  have hpats : pat ∈ current.filterMap (mkPrediction (analyze_trend_persistence history now)) :=
    List.mem_filterMap.mpr ⟨t, hmem, hmk⟩
  have hlen' : ((current.filterMap
      (mkPrediction (analyze_trend_persistence history now))).mergeSort
      (fun a b => decide (b.confidence ≤ a.confidence))).length ≤ 5 := by
    rw [List.length_mergeSort]
    exact le_trans (List.length_filterMap_le _ _) hlen
  rw [List.take_of_length_le hlen']
  exact ⟨pat, List.mem_mergeSort.mpr hpats, rfl, rfl, rfl, rfl⟩

/-- Witness for the amended C8: a one-entry history (non-empty, but its only
group is too short to enter the persistence data) and one current trend with
`relevance_score = 0.75`. -/
theorem predict_includes_new_high_scoring_witness :
    ∃ p ∈ predict_emerging_trends histOne [trendNew] ("x"),
      p.trend_name = ctrendName trendNew ∧ p.prediction_type = "new_emerging" ∧
      p.confidence = min (ctrendScore trendNew) 0.9 ∧
      p.predicted_lifespan = (if 0.8 < ctrendScore trendNew then "short" else "medium") :=
  predict_includes_new_high_scoring histOne [trendNew] ("x") trendNew
    (by with_unfolding_all decide) (by with_unfolding_all decide)
    (List.mem_singleton.mpr rfl)
    (by with_unfolding_all decide) (by with_unfolding_all decide)

/-! ### C6 -/

theorem nonneg_le_of_sq_le_sq {x y : ℝ} (hy : 0 ≤ y) (h : x ^ 2 ≤ y ^ 2)
    (hx : 0 ≤ x) : x ≤ y := by
  calc x = Real.sqrt (x ^ 2) := (Real.sqrt_sq hx).symm
    _ ≤ Real.sqrt (y ^ 2) := Real.sqrt_le_sqrt h
    _ = y := Real.sqrt_sq hy

/-- The variance-based threshold tests of `severityOf` agree with the real
z-score thresholds of the source: under a positive variance `v = std²`,
`z = d / std ≥ t ↔ 0 ≤ d ∧ t²·v ≤ d²`. -/
theorem z_threshold_iff (d v t : ℚ) (hv : 0 < v) (ht : 0 < t) :
    ((t : ℝ) ≤ (d : ℝ) / Real.sqrt (v : ℝ)) ↔ (0 ≤ d ∧ t ^ 2 * v ≤ d ^ 2) := by
  have hr : (0 : ℝ) < (v : ℝ) := by exact_mod_cast hv
  have hs : (0 : ℝ) < Real.sqrt (v : ℝ) := Real.sqrt_pos.mpr hr
  have hq : Real.sqrt (v : ℝ) ^ 2 = (v : ℝ) := Real.sq_sqrt hr.le
  have htr : (0 : ℝ) < (t : ℝ) := by exact_mod_cast ht
  rw [le_div_iff hs]
  constructor
  · intro h
    have hd : (0 : ℝ) ≤ (d : ℝ) :=
      le_trans (mul_nonneg htr.le hs.le) h
    refine ⟨by exact_mod_cast hd, ?_⟩
    have hsq := pow_le_pow_left (mul_nonneg htr.le hs.le) h 2
    rw [mul_pow, hq] at hsq
    exact_mod_cast hsq
  · rintro ⟨hd, hsq⟩
    have hdr : (0 : ℝ) ≤ (d : ℝ) := by exact_mod_cast hd
    have hsq' : ((t : ℝ)) ^ 2 * (v : ℝ) ≤ ((d : ℝ)) ^ 2 := by exact_mod_cast hsq
    have hxy : ((t : ℝ) * Real.sqrt (v : ℝ)) ^ 2 ≤ ((d : ℝ)) ^ 2 := by
      rw [mul_pow, hq]
      exact hsq'
    exact nonneg_le_of_sq_le_sq hdr hxy (mul_nonneg htr.le hs.le)

/-- `zleB` agrees with the comparison of the real z-scores when both variances
are positive. -/
theorem zleB_pos_iff {d1 v1 d2 v2 : ℚ} (h1 : 0 < v1) (h2 : 0 < v2) :
    zleB d1 v1 d2 v2 = true ↔
      (d1 : ℝ) / Real.sqrt (v1 : ℝ) ≤ (d2 : ℝ) / Real.sqrt (v2 : ℝ) := by
  have hr1 : (0 : ℝ) < (v1 : ℝ) := by exact_mod_cast h1
  have hr2 : (0 : ℝ) < (v2 : ℝ) := by exact_mod_cast h2
  have hs1 : (0 : ℝ) < Real.sqrt (v1 : ℝ) := Real.sqrt_pos.mpr hr1
  have hs2 : (0 : ℝ) < Real.sqrt (v2 : ℝ) := Real.sqrt_pos.mpr hr2
  have hq1 : Real.sqrt (v1 : ℝ) ^ 2 = (v1 : ℝ) := Real.sq_sqrt hr1.le
  have hq2 : Real.sqrt (v2 : ℝ) ^ 2 = (v2 : ℝ) := Real.sq_sqrt hr2.le
  rw [div_le_div_iff hs1 hs2]
  unfold zleB
  dsimp only
  simp only [if_pos h1, if_pos h2]
  by_cases hd1 : d1 < 0
  · rw [if_pos hd1]
    have hd1r : (d1 : ℝ) < 0 := by exact_mod_cast hd1
    simp only [Bool.or_eq_true, decide_eq_true_eq]
    constructor
    · rintro (hle | hsq)
      · have hL : (d1 : ℝ) * Real.sqrt (v2 : ℝ) < 0 := mul_neg_of_neg_of_pos hd1r hs2
        have hR : 0 ≤ (d2 : ℝ) * Real.sqrt (v1 : ℝ) :=
          mul_nonneg (by exact_mod_cast hle) hs1.le
        linarith
      · by_cases hd2 : 0 ≤ d2
        · have hL : (d1 : ℝ) * Real.sqrt (v2 : ℝ) < 0 := mul_neg_of_neg_of_pos hd1r hs2
          have hR : 0 ≤ (d2 : ℝ) * Real.sqrt (v1 : ℝ) :=
            mul_nonneg (by exact_mod_cast hd2) hs1.le
          linarith
        · push_neg at hd2
          have hd2r : (d2 : ℝ) < 0 := by exact_mod_cast hd2
          have hsq' : ((d2 : ℝ)) ^ 2 * (v1 : ℝ) ≤ ((d1 : ℝ)) ^ 2 * (v2 : ℝ) := by
            exact_mod_cast hsq
          have hx : 0 ≤ -(d2 : ℝ) * Real.sqrt (v1 : ℝ) :=
            mul_nonneg (by linarith) hs1.le
          have hy : 0 ≤ -(d1 : ℝ) * Real.sqrt (v2 : ℝ) :=
            mul_nonneg (by linarith) hs2.le
          have hxy : (-(d2 : ℝ) * Real.sqrt (v1 : ℝ)) ^ 2 ≤
              (-(d1 : ℝ) * Real.sqrt (v2 : ℝ)) ^ 2 := by
            rw [mul_pow, mul_pow, hq1, hq2]
            simpa [neg_sq] using hsq'
          have := nonneg_le_of_sq_le_sq hy hxy hx
          linarith
    · intro hre
      by_cases hd2 : 0 ≤ d2
      · exact Or.inl hd2
      · push_neg at hd2
        right
        have hd2r : (d2 : ℝ) < 0 := by exact_mod_cast hd2
        have hx : 0 ≤ -(d2 : ℝ) * Real.sqrt (v1 : ℝ) :=
          mul_nonneg (by linarith) hs1.le
        have h' : -(d2 : ℝ) * Real.sqrt (v1 : ℝ) ≤ -(d1 : ℝ) * Real.sqrt (v2 : ℝ) := by
          linarith
        have hsq' := pow_le_pow_left hx h' 2
        rw [mul_pow, mul_pow, hq1, hq2] at hsq'
        have hfin : ((d2 : ℝ)) ^ 2 * (v1 : ℝ) ≤ ((d1 : ℝ)) ^ 2 * (v2 : ℝ) := by
          simpa [neg_sq] using hsq'
        exact_mod_cast hfin
  · rw [if_neg hd1]
    push_neg at hd1
    have hd1r : (0 : ℝ) ≤ (d1 : ℝ) := by exact_mod_cast hd1
    simp only [Bool.and_eq_true, decide_eq_true_eq]
    constructor
    · rintro ⟨hd2, hsq⟩
      have hd2r : (0 : ℝ) ≤ (d2 : ℝ) := by exact_mod_cast hd2
      have hx : 0 ≤ (d1 : ℝ) * Real.sqrt (v2 : ℝ) := mul_nonneg hd1r hs2.le
      have hy : 0 ≤ (d2 : ℝ) * Real.sqrt (v1 : ℝ) := mul_nonneg hd2r hs1.le
      have hsq' : ((d1 : ℝ)) ^ 2 * (v2 : ℝ) ≤ ((d2 : ℝ)) ^ 2 * (v1 : ℝ) := by
        exact_mod_cast hsq
      have hxy : ((d1 : ℝ) * Real.sqrt (v2 : ℝ)) ^ 2 ≤
          ((d2 : ℝ) * Real.sqrt (v1 : ℝ)) ^ 2 := by
        rw [mul_pow, mul_pow, hq1, hq2]
        exact hsq'
      exact nonneg_le_of_sq_le_sq hy hxy hx
    · intro hre
      have hd2 : (0 : ℚ) ≤ d2 := by
        by_contra hneg
        push_neg at hneg
        have hd2r : (d2 : ℝ) < 0 := by exact_mod_cast hneg
        have hL : (d2 : ℝ) * Real.sqrt (v1 : ℝ) < 0 := mul_neg_of_neg_of_pos hd2r hs1
        have hR : 0 ≤ (d1 : ℝ) * Real.sqrt (v2 : ℝ) := mul_nonneg hd1r hs2.le
        linarith
      refine ⟨hd2, ?_⟩
      have hx : 0 ≤ (d1 : ℝ) * Real.sqrt (v2 : ℝ) := mul_nonneg hd1r hs2.le
      have hsq' := pow_le_pow_left hx hre 2
      rw [mul_pow, mul_pow, hq1, hq2] at hsq'
      exact_mod_cast hsq'

/-- `zleB` on arbitrary inputs is the comparison of the degenerate-extended
real z-scores (value 0 on nonpositive variance). -/
theorem zleB_iff_all (d1 v1 d2 v2 : ℚ) :
    zleB d1 v1 d2 v2 = true ↔
      (if v1 ≤ 0 then (0 : ℝ) else (d1 : ℝ) / Real.sqrt (v1 : ℝ)) ≤
      (if v2 ≤ 0 then (0 : ℝ) else (d2 : ℝ) / Real.sqrt (v2 : ℝ)) := by
  by_cases h1 : 0 < v1 <;> by_cases h2 : 0 < v2
  · rw [zleB_pos_iff h1 h2, if_neg (not_le.mpr h1), if_neg (not_le.mpr h2)]
  · have hz : zleB d1 v1 d2 v2 = zleB d1 v1 0 1 := by
      unfold zleB
      dsimp only
      simp [h2]
    rw [hz, zleB_pos_iff h1 one_pos, if_neg (not_le.mpr h1), if_pos (not_lt.mp h2)]
    simp
  · have hz : zleB d1 v1 d2 v2 = zleB 0 1 d2 v2 := by
      unfold zleB
      dsimp only
      simp [h1]
    rw [hz, zleB_pos_iff one_pos h2, if_pos (not_lt.mp h1), if_neg (not_le.mpr h2)]
    simp
  · rw [if_pos (not_lt.mp h1), if_pos (not_lt.mp h2)]
    have hz : zleB d1 v1 d2 v2 = true := by
      unfold zleB
      dsimp only
      simp [h1, h2]
    simp [hz]

theorem zleB_trans {d1 v1 d2 v2 d3 v3 : ℚ} (h : zleB d1 v1 d2 v2 = true)
    (h' : zleB d2 v2 d3 v3 = true) : zleB d1 v1 d3 v3 = true := by
  rw [zleB_iff_all] at h h' ⊢
  exact le_trans h h'

theorem zleB_total (d1 v1 d2 v2 : ℚ) :
    (zleB d1 v1 d2 v2 || zleB d2 v2 d1 v1) = true := by
  rw [Bool.or_eq_true, zleB_iff_all, zleB_iff_all]
  exact le_total _ _

theorem spikeLeB_trans (a b c : Spike) (hab : spikeLeB a b = true)
    (hbc : spikeLeB b c = true) : spikeLeB a c = true := by
  unfold spikeLeB at hab hbc ⊢
  simp only [Bool.or_eq_true, Bool.and_eq_true, decide_eq_true_eq] at hab hbc ⊢
  rcases hab with hab | ⟨hab, hzab⟩ <;> rcases hbc with hbc | ⟨hbc, hzbc⟩
  · exact Or.inl (lt_trans hbc hab)
  · exact Or.inl (by omega)
  · exact Or.inl (by omega)
  · exact Or.inr ⟨by omega, zleB_trans hzbc hzab⟩

theorem spikeLeB_total (a b : Spike) : (spikeLeB a b || spikeLeB b a) = true := by
  unfold spikeLeB
  simp only [Bool.or_eq_true, Bool.and_eq_true, decide_eq_true_eq]
  rcases Nat.lt_trichotomy (sevRank a.severity) (sevRank b.severity) with h | h | h
  · exact Or.inr (Or.inl h)
  · have := zleB_total (b.current_score - b.baseline_mean) b.baseline_var
      (a.current_score - a.baseline_mean) a.baseline_var
    rcases Bool.or_eq_true _ _ |>.mp this with hz | hz
    · exact Or.inl (Or.inr ⟨h, hz⟩)
    · exact Or.inr (Or.inr ⟨h.symm, hz⟩)
  · exact Or.inl (Or.inl h)

theorem spikeAt_var_pos {name : String} {series : List HPoint}
    {frequencies baseline : List ℚ} {m v : ℚ} {w i : ℕ} {score : ℚ} {s : Spike}
    (hv : 0 < v)
    (h : spikeAt name series frequencies baseline m v w i score = Except.ok (some s)) :
    0 < s.baseline_var := by
  unfold spikeAt at h
  cases hsev : severityOf (score - m) v with
  | none =>
    rw [hsev] at h
    cases h
  | some sev =>
    rw [hsev] at h
    dsimp only at h
    split at h <;> split at h
    · cases h
    · injection h with h
      injection h with h
      subst h
      exact hv
    · cases h
    · injection h with h
      injection h with h
      subst h
      exact hv

theorem spikesLoop_var_pos {name : String} {series : List HPoint}
    {frequencies baseline : List ℚ} {m v : ℚ} {w : ℕ} (hv : 0 < v) :
    ∀ (l : List (ℕ × ℚ)) (out : List Spike),
      spikesLoop name series frequencies baseline m v w l = Except.ok out →
      ∀ s ∈ out, 0 < s.baseline_var := by
  intro l
  induction l with
  | nil =>
    intro out h s hs
    injection h with h
    subst h
    cases hs
  | cons p rest ih =>
    intro out h s hs
    obtain ⟨i, score⟩ := p
    simp only [spikesLoop] at h
    cases hat : spikeAt name series frequencies baseline m v w i score with
    | error e =>
      rw [hat] at h
      cases h
    | ok o =>
      rw [hat] at h
      cases o with
      | none => exact ih out h s hs
      | some s0 =>
        cases hrest : spikesLoop name series frequencies baseline m v w rest with
        | error e =>
          rw [hrest] at h
          cases h
        | ok acc =>
          rw [hrest] at h
          injection h with h
          subst h
          rcases List.mem_cons.mp hs with hs | hs
          · subst hs
            exact spikeAt_var_pos hv hat
          · exact ih acc hrest s hs

theorem spikesForSeries_var_pos {name : String} {series : List HPoint} {w : ℕ}
    {out : List Spike} (h : spikesForSeries name series w = Except.ok out) :
    ∀ s ∈ out, 0 < s.baseline_var := by
  unfold spikesForSeries at h
  dsimp only at h
  split at h
  · split at h
    · injection h with h
      subst h
      intro s hs
      cases hs
    · split at h
      · split at h
        · rename_i hv
          exact spikesLoop_var_pos hv _ out h
        · injection h with h
          subst h
          intro s hs
          cases hs
      · split at h
        · rename_i hv
          exact spikesLoop_var_pos hv _ out h
        · injection h with h
          subst h
          intro s hs
          cases hs
  · injection h with h
    subst h
    intro s hs
    cases hs

theorem spikesOfGroups_var_pos {w : ℕ} :
    ∀ (gs : List (String × List HPoint)) (out : List Spike),
      spikesOfGroups w gs = Except.ok out → ∀ s ∈ out, 0 < s.baseline_var := by
  intro gs
  induction gs with
  | nil =>
    intro out h s hs
    injection h with h
    subst h
    cases hs
  | cons g rest ih =>
    intro out h s hs
    obtain ⟨n, ps⟩ := g
    simp only [spikesOfGroups] at h
    split at h
    · exact ih out h s hs
    · cases hser : spikesForSeries n
          (ps.mergeSort (fun a b => decide (a.timestamp ≤ b.timestamp))) w with
      | error e =>
        rw [hser] at h
        cases h
      | ok s1 =>
        rw [hser] at h
        cases hrest : spikesOfGroups w rest with
        | error e =>
          rw [hrest] at h
          cases h
        | ok acc =>
          rw [hrest] at h
          injection h with h
          subst h
          rcases List.mem_append.mp hs with hs | hs
          · exact spikesForSeries_var_pos hser s hs
          · exact ih acc hrest s hs

/-- C6: whenever `detect_spikes` returns a spike list, that list is sorted
primarily by severity rank (`critical` 4 > `high` 3 > `moderate` 2) and
secondarily by the raw z-score
`(current_score - baseline_mean) / √baseline_var`, both descending. -/
theorem detect_spikes_sorted (td : List TrendEntry) (w : ℕ) (now : String)
    (spikes : List Spike) (h : detect_spikes td w now = Except.ok spikes) :
    spikes.Sorted (fun a b =>
      sevRank b.severity < sevRank a.severity ∨
      (sevRank a.severity = sevRank b.severity ∧
        ((b.current_score - b.baseline_mean : ℚ) : ℝ) / Real.sqrt (b.baseline_var : ℝ) ≤
        ((a.current_score - a.baseline_mean : ℚ) : ℝ) / Real.sqrt (a.baseline_var : ℝ))) := by
  unfold detect_spikes at h
  split at h
  · injection h with h
    subst h
    exact List.Pairwise.nil
  · cases hg : spikesOfGroups w (buildSeries td now) with
    | error e =>
      rw [hg] at h
      cases h
    | ok pre =>
      rw [hg] at h
      injection h with h
      subst h
      have hvar : ∀ s ∈ pre, 0 < s.baseline_var := spikesOfGroups_var_pos _ pre hg
      have hsorted : (pre.mergeSort spikeLeB).Pairwise (fun a b => spikeLeB a b = true) :=
        List.sorted_mergeSort spikeLeB_trans spikeLeB_total pre
      refine hsorted.imp_of_mem ?_
      intro a b ha hb hab
      have hva : 0 < a.baseline_var := hvar a (List.mem_mergeSort.mp ha)
      have hvb : 0 < b.baseline_var := hvar b (List.mem_mergeSort.mp hb)
      unfold spikeLeB at hab
      rcases Bool.or_eq_true _ _ |>.mp hab with hr | hr
      · exact Or.inl (of_decide_eq_true hr)
      · rcases Bool.and_eq_true _ _ |>.mp hr with ⟨he, hz⟩
        exact Or.inr ⟨of_decide_eq_true he, (zleB_pos_iff hvb hva).mp hz⟩

/-- Witness for C6: the two-spike history `tdTwoSpikes` produces a concrete
sorted spike list. -/
theorem detect_spikes_sorted_witness :
    ([{ trend_name := "q", timestamp := "2024-01-09", severity := "moderate",
        current_score := 5, baseline_mean := 1, baseline_var := 2,
        percentile := 100, frequency := 0, spike_type := "score" },
      { trend_name := "q", timestamp := "2024-01-08", severity := "moderate",
        current_score := 4, baseline_mean := 1, baseline_var := 2,
        percentile := 100, frequency := 0, spike_type := "score" }] :
        List Spike).Sorted (fun a b =>
      sevRank b.severity < sevRank a.severity ∨
      (sevRank a.severity = sevRank b.severity ∧
        ((b.current_score - b.baseline_mean : ℚ) : ℝ) / Real.sqrt (b.baseline_var : ℝ) ≤
        ((a.current_score - a.baseline_mean : ℚ) : ℝ) / Real.sqrt (a.baseline_var : ℝ))) :=
  detect_spikes_sorted tdTwoSpikes 7 ("x") _ (by with_unfolding_all decide)

end Loki
